import Mathlib

/-!
Verification development for the Automa document-extraction backend.

The definitions below are shallow embeddings of the Python source:

* `mergePages`, `flattenMerged` — the page-merge loop of
  `create_template_to_data` in `src/api/endpoints/template_upload.py`
  (lines 150–178);
* `stripFences`, `aiExtract`, `aiExtractTP` — the response post-processing of
  `extract_key_values_with_ai` / `extract_key_values_with_ai_for_template` in
  `src/services/ai_extraction_service.py` and of the copy in
  `src/services/template_processing.py`;
* `extractWordPositions` — `extract_word_positions` in
  `src/services/ocr_service.py`;
* `annotateItem`, `annotateFromAiResponse` — `annotate_from_ai_response` in
  `src/services/annotation_service.py`;
* `processPages` — the per-page loop of `process_template` in
  `src/services/template_processing.py`;
* `createTemplateToData` — the file-handling control flow of
  `create_template_to_data` in `src/api/endpoints/template_upload.py`.

Python `dict.get` is modelled with `Option`; values that the code only ever
compares against the literal `"N/A"` and passes through are modelled as
`Option String` (a `none` models a JSON `null`).
-/

/-- A bounding box `{x, y, w, h}` as carried in AI responses and word
observations. -/
structure Box where
  x : Int
  y : Int
  w : Int
  h : Int
deriving DecidableEq, Repr

/-- One element of an AI response `key_values` list, as read by the merge loop
of `create_template_to_data`: each of `key`, `value`, `position` is obtained
with `kv.get(...)`, so each may be absent (`none`). -/
structure KVEntry where
  key : Option String
  value : Option String
  pos : Option Box
deriving DecidableEq, Repr

/-- One entry of the running `merged_key_values` dictionary of
`create_template_to_data`: `{"key": key, "value": value, "position": position}`. -/
structure MergedEntry where
  key : String
  value : Option String
  pos : Option Box
deriving DecidableEq, Repr

/-- `merged_key_values = {key: {"key": key, "value": "N/A", "position": None}
for key in expected_keys}` (template_upload.py line 157).  The dictionary is
modelled as a list of entries in key order; the keys come from a Python dict
(`template_parsed_data.keys()`), hence are distinct. -/
def initMerged (expected : List String) : List MergedEntry :=
  expected.map (fun k => ⟨k, some "N/A", none⟩)

/-- The body of the inner loop of `create_template_to_data` (lines 162–169)
applied to one stored entry `e` for an incoming pair with key `k`:
`if key in merged_key_values and value != "N/A" and
merged_key_values[key]["value"] == "N/A"` then replace the stored entry. -/
def updEntry (k : String) (v : Option String) (p : Option Box)
    (e : MergedEntry) : MergedEntry :=
  if e.key = k ∧ v ≠ some "N/A" ∧ e.value = some "N/A" then ⟨k, v, p⟩ else e

/-- Processing of a single `kv` element by the merge loop:
`key = kv.get("key")` (an absent key can never satisfy
`key in merged_key_values`), then the conditional update above. -/
def mergeStep (ms : List MergedEntry) (kv : KVEntry) : List MergedEntry :=
  match kv.key with
  | none => ms
  | some k => ms.map (updEntry k kv.value kv.pos)

/-- Folding the merge step over one page's `key_values` list. -/
def mergeList (ms : List MergedEntry) (kvs : List KVEntry) : List MergedEntry :=
  kvs.foldl mergeStep ms

/-- A page dictionary as consumed by the merge:
`page.get("ai_extraction", {}).get("key_values", [])` — `none` models a page
with no `key_values` list at all. -/
def pageKVs (p : Option (List KVEntry)) : List KVEntry :=
  p.getD []

/-- The whole merge loop of `create_template_to_data` (lines 157–169): start
from the `"N/A"`-initialised dictionary and run every page's `key_values` in
page order. -/
def mergePages (expected : List String) (pages : List (Option (List KVEntry))) :
    List MergedEntry :=
  pages.foldl (fun acc p => mergeList acc (pageKVs p)) (initMerged expected)

/-- `flattened_extracted_result = {kv["key"]: kv["value"] for kv in
final_key_values}` (lines 174–178); the keys are distinct, so the dict is the
list of (key, value) pairs in order. -/
def flattenMerged (ms : List MergedEntry) : List (String × Option String) :=
  ms.map (fun e => (e.key, e.value))

/-- The page-ordered flattened sequence of key-value elements the merge loop
visits. -/
def allKVs (pages : List (Option (List KVEntry))) : List KVEntry :=
  pages.flatMap pageKVs

/-- The first element of a key-value sequence that would resolve field `k`:
key equal to `k` and value different from the literal `"N/A"`. -/
def firstHit (k : String) (kvs : List KVEntry) : Option KVEntry :=
  kvs.find? (fun kv => kv.key = some k ∧ kv.value ≠ some "N/A")

theorem updEntry_key (k : String) (v : Option String) (p : Option Box)
    (e : MergedEntry) : (updEntry k v p e).key = e.key := by
  unfold updEntry
  split
  · next h => exact h.1.symm
  · rfl

theorem updEntry_of_resolved (k : String) (v : Option String) (p : Option Box)
    (e : MergedEntry) (hv : e.value ≠ some "N/A") : updEntry k v p e = e := by
  unfold updEntry
  split
  · next h => exact absurd h.2.2 hv
  · rfl

theorem updEntry_of_na_value (k : String) (p : Option Box) (e : MergedEntry) :
    updEntry k (some "N/A") p e = e := by
  unfold updEntry
  split
  · next h => exact absurd rfl h.2.1
  · rfl

theorem find?_key_map (f : MergedEntry → MergedEntry)
    (hf : ∀ e, (f e).key = e.key) (k : String) (ms : List MergedEntry) :
    (ms.map f).find? (fun x => x.key == k) =
      (ms.find? (fun x => x.key == k)).map f := by
  induction ms with
  | nil => rfl
  | cons a l ih =>
    by_cases h : a.key = k
    · rw [List.map_cons, List.find?_cons_of_pos _ (by simp [hf, h]),
        List.find?_cons_of_pos _ (by simp [h])]
      rfl
    · rw [List.map_cons, List.find?_cons_of_neg _ (by simp [hf, h]),
        List.find?_cons_of_neg _ (by simp [h])]
      exact ih

theorem mergeStep_find? (ms : List MergedEntry) (kv : KVEntry) (k : String) :
    (mergeStep ms kv).find? (fun x => x.key == k) =
      (ms.find? (fun x => x.key == k)).map (fun e =>
        match kv.key with
        | none => e
        | some k2 => updEntry k2 kv.value kv.pos e) := by
  cases hk : kv.key with
  | none =>
    simp only [mergeStep, hk]
    cases ms.find? (fun x => x.key == k) <;> rfl
  | some k2 =>
    simp only [mergeStep, hk]
    exact find?_key_map _ (fun e => updEntry_key k2 kv.value kv.pos e) k ms

theorem mergeList_find?_frozen (kvs : List KVEntry) :
    ∀ (ms : List MergedEntry) (e : MergedEntry) (k : String),
    ms.find? (fun x => x.key == k) = some e → e.value ≠ some "N/A" →
    (mergeList ms kvs).find? (fun x => x.key == k) = some e := by
  induction kvs with
  | nil => intro ms e k he _; exact he
  | cons kv kvs ih =>
    intro ms e k he hv
    apply ih (mergeStep ms kv) e k _ hv
    rw [mergeStep_find?, he]
    cases hk : kv.key with
    | none => rfl
    | some k2 =>
      simp [updEntry_of_resolved k2 kv.value kv.pos e hv]

theorem map_self {α : Type} (f : α → α) (l : List α) (h : ∀ a ∈ l, f a = a) :
    l.map f = l := by
  induction l with
  | nil => rfl
  | cons a l ih =>
    rw [List.map_cons, h a (List.mem_cons_self a l),
      ih (fun b hb => h b (List.mem_cons_of_mem a hb))]

theorem map_eq_map {α β : Type} (f g : α → β) (l : List α)
    (h : ∀ a ∈ l, f a = g a) : l.map f = l.map g := by
  induction l with
  | nil => rfl
  | cons a l ih =>
    rw [List.map_cons, List.map_cons, h a (List.mem_cons_self a l),
      ih (fun b hb => h b (List.mem_cons_of_mem a hb))]

theorem mergeList_find?_pending (kvs : List KVEntry) :
    ∀ (ms : List MergedEntry) (e : MergedEntry) (k : String),
    ms.find? (fun x => x.key == k) = some e → e.value = some "N/A" →
    (mergeList ms kvs).find? (fun x => x.key == k) =
      some (match firstHit k kvs with
            | some kv => ⟨k, kv.value, kv.pos⟩
            | none => e) := by
  induction kvs with
  | nil => intro ms e k he _; simpa [firstHit] using he
  | cons kv kvs ih =>
    intro ms e k he hv
    have hek : e.key = k := by simpa using List.find?_some he
    have hml : mergeList ms (kv :: kvs) = mergeList (mergeStep ms kv) kvs := rfl
    cases hk : kv.key with
    | none =>
      have hstep : mergeStep ms kv = ms := by simp [mergeStep, hk]
      have hfh : firstHit k (kv :: kvs) = firstHit k kvs := by
        unfold firstHit
        rw [List.find?_cons_of_neg _ (by simp [hk])]
      rw [hml, hstep, hfh]
      exact ih ms e k he hv
    | some k2 =>
      by_cases hk2 : k2 = k
      · subst hk2
        by_cases hval : kv.value = some "N/A"
        · have hstep : mergeStep ms kv = ms := by
            simp only [mergeStep, hk, hval]
            exact map_self _ ms (fun a _ => updEntry_of_na_value k2 kv.pos a)
          have hfh : firstHit k2 (kv :: kvs) = firstHit k2 kvs := by
            unfold firstHit
            rw [List.find?_cons_of_neg _ (by simp [hk, hval])]
          rw [hml, hstep, hfh]
          exact ih ms e k2 he hv
        · have hfh : firstHit k2 (kv :: kvs) = some kv := by
            unfold firstHit
            rw [List.find?_cons_of_pos _ (by simp [hk, hval])]
          have hstep : (mergeStep ms kv).find? (fun x => x.key == k2) =
              some ⟨k2, kv.value, kv.pos⟩ := by
            rw [mergeStep_find?, he]
            simp only [hk, Option.map]
            unfold updEntry
            rw [if_pos ⟨hek, hval, hv⟩]
          rw [hml, hfh]
          exact mergeList_find?_frozen kvs (mergeStep ms kv) _ k2 hstep
            (by simpa using hval)
      · have hupd : updEntry k2 kv.value kv.pos e = e := by
          unfold updEntry
          rw [if_neg]
          rintro ⟨h1, -, -⟩
          exact hk2 (hek ▸ h1).symm
        have hstep : (mergeStep ms kv).find? (fun x => x.key == k) = some e := by
          rw [mergeStep_find?, he]
          simp only [hk, Option.map]
          rw [hupd]
        have hfh : firstHit k (kv :: kvs) = firstHit k kvs := by
          unfold firstHit
          rw [List.find?_cons_of_neg _ (by simp [hk, hk2])]
        rw [hml, hfh]
        exact ih (mergeStep ms kv) e k hstep hv

theorem find?_initMerged (expected : List String) (k : String) :
    k ∈ expected →
    (initMerged expected).find? (fun x => x.key == k) =
      some ⟨k, some "N/A", none⟩ := by
  induction expected with
  | nil => intro h; cases h
  | cons a l ih =>
    intro hk
    rcases List.mem_cons.mp hk with h1 | h1
    · subst h1
      simp only [initMerged, List.map_cons]
      rw [List.find?_cons_of_pos _ (by simp)]
    · by_cases h : a = k
      · subst h
        simp only [initMerged, List.map_cons]
        rw [List.find?_cons_of_pos _ (by simp)]
      · simp only [initMerged, List.map_cons]
        rw [List.find?_cons_of_neg _ (by simp [h])]
        exact ih h1

theorem mergePages_eq (expected : List String)
    (pages : List (Option (List KVEntry))) :
    mergePages expected pages = mergeList (initMerged expected) (allKVs pages) := by
  suffices h : ∀ (ps : List (Option (List KVEntry))) (ms : List MergedEntry),
      ps.foldl (fun acc p => mergeList acc (pageKVs p)) ms =
        mergeList ms (ps.flatMap pageKVs) by
    exact h pages (initMerged expected)
  intro ps
  induction ps with
  | nil => intro ms; rfl
  | cons p ps ih =>
    intro ms
    simp only [List.foldl_cons, List.flatMap_cons]
    rw [ih (mergeList ms (pageKVs p))]
    simp [mergeList, List.foldl_append]

theorem mem_mergeList (kvs : List KVEntry) :
    ∀ (ms : List MergedEntry) (e : MergedEntry), e ∈ mergeList ms kvs →
    e ∈ ms ∨ ∃ kv ∈ kvs, kv.key = some e.key ∧ kv.value = e.value ∧
      kv.pos = e.pos ∧ e.value ≠ some "N/A" := by
  induction kvs with
  | nil => intro ms e he; exact Or.inl he
  | cons kv kvs ih =>
    intro ms e he
    have hml : mergeList ms (kv :: kvs) = mergeList (mergeStep ms kv) kvs := rfl
    rw [hml] at he
    rcases ih (mergeStep ms kv) e he with h | ⟨kv2, hkv2, h1, h2, h3, h4⟩
    · cases hk : kv.key with
      | none =>
        rw [mergeStep, hk] at h
        exact Or.inl h
      | some k2 =>
        rw [mergeStep, hk] at h
        rcases List.mem_map.mp h with ⟨e0, he0, heq⟩
        unfold updEntry at heq
        split at heq
        · next hguard =>
          refine Or.inr ⟨kv, List.mem_cons_self kv kvs, ?_, ?_, ?_, ?_⟩
          · rw [← heq]; exact hk
          · rw [← heq]
          · rw [← heq]
          · rw [← heq]; exact hguard.2.1
        · exact Or.inl (heq ▸ he0)
    · exact Or.inr ⟨kv2, List.mem_cons_of_mem kv hkv2, h1, h2, h3, h4⟩

theorem mem_initMerged (expected : List String) (e : MergedEntry)
    (he : e ∈ initMerged expected) : e.value = some "N/A" ∧ e.pos = none := by
  rcases List.mem_map.mp he with ⟨k, -, heq⟩
  rw [← heq]
  exact ⟨rfl, rfl⟩

theorem mergeList_keys (kvs : List KVEntry) :
    ∀ ms : List MergedEntry,
    (mergeList ms kvs).map MergedEntry.key = ms.map MergedEntry.key := by
  induction kvs with
  | nil => intro ms; rfl
  | cons kv kvs ih =>
    intro ms
    have hml : mergeList ms (kv :: kvs) = mergeList (mergeStep ms kv) kvs := rfl
    rw [hml, ih (mergeStep ms kv)]
    cases hk : kv.key with
    | none => rw [mergeStep, hk]
    | some k2 =>
      rw [mergeStep, hk, List.map_map]
      exact map_eq_map _ _ ms (fun a _ => updEntry_key k2 kv.value kv.pos a)

/-- C1: the Page Merge Engine of `create_template_to_data` initialises every
expected field to `"N/A"` with null position and resolves each expected field
to the first element of the page-ordered key-value sequence whose value is not
`"N/A"` (adopting its value and position); later non-`"N/A"` values never
overwrite it, and a field with no non-`"N/A"` occurrence stays `"N/A"` with
null position.  The second conjunct checks the spec's two-page invoice
scenario. -/
theorem merge_first_nonNA_wins (expected : List String)
    (pages : List (Option (List KVEntry))) (k : String) (hk : k ∈ expected) :
    (mergePages expected pages).find? (fun e => e.key == k) =
      some (match firstHit k (allKVs pages) with
            | some kv => ⟨k, kv.value, kv.pos⟩
            | none => ⟨k, some "N/A", none⟩) ∧
    flattenMerged (mergePages ["Invoice Number", "Total"]
      [some [⟨some "Invoice Number", some "N/A", none⟩,
             ⟨some "Total", some "500.00", some ⟨10, 20, 30, 40⟩⟩],
       some [⟨some "Invoice Number", some "INV-77", some ⟨5, 6, 7, 8⟩⟩,
             ⟨some "Total", some "N/A", none⟩]]) =
      [("Invoice Number", some "INV-77"), ("Total", some "500.00")] := by
  constructor
  · rw [mergePages_eq]
    exact mergeList_find?_pending (allKVs pages) (initMerged expected)
      ⟨k, some "N/A", none⟩ k (find?_initMerged expected k hk) rfl
  · decide

theorem merge_first_nonNA_wins_witness :
    (mergePages ["Invoice Number", "Total"]
      [some [⟨some "Invoice Number", some "N/A", none⟩,
             ⟨some "Total", some "500.00", some ⟨10, 20, 30, 40⟩⟩],
       some [⟨some "Invoice Number", some "INV-77", some ⟨5, 6, 7, 8⟩⟩,
             ⟨some "Total", some "N/A", none⟩]]).find?
        (fun e => e.key == "Invoice Number") =
      some ⟨"Invoice Number", some "INV-77", some ⟨5, 6, 7, 8⟩⟩ := by
  have h := (merge_first_nonNA_wins ["Invoice Number", "Total"]
    [some [⟨some "Invoice Number", some "N/A", none⟩,
           ⟨some "Total", some "500.00", some ⟨10, 20, 30, 40⟩⟩],
     some [⟨some "Invoice Number", some "INV-77", some ⟨5, 6, 7, 8⟩⟩,
           ⟨some "Total", some "N/A", none⟩]] "Invoice Number" (by decide)).1
  exact h.trans (by decide)

theorem find?_append_of_neg {α : Type} (p : α → Bool) (pre l : List α)
    (h : ∀ a ∈ pre, ¬ p a = true) : (pre ++ l).find? p = l.find? p := by
  induction pre with
  | nil => rfl
  | cons a pre ih =>
    rw [List.cons_append, List.find?_cons_of_neg _ (h a (List.mem_cons_self a pre))]
    exact ih (fun b hb => h b (List.mem_cons_of_mem a hb))

/-- C10: the first-wins rule of the merge loop operates entry by entry over the
whole page-ordered flattened key-value sequence: if the flattened sequence
splits as `pre ++ kv :: post` where `kv` is the first element for key `k` with
a non-`"N/A"` value, the merged entry for `k` is `kv`'s value and position, no
matter what `post` contains — duplicate occurrences of `k` later on the same
page are ignored exactly like occurrences on later pages. -/
theorem merge_first_occurrence_entrywise (expected : List String)
    (pages : List (Option (List KVEntry))) (k : String)
    (pre post : List KVEntry) (kv : KVEntry)
    (hsplit : allKVs pages = pre ++ kv :: post)
    (hkey : kv.key = some k) (hval : kv.value ≠ some "N/A")
    (hpre : ∀ kv2 ∈ pre, ¬(kv2.key = some k ∧ kv2.value ≠ some "N/A"))
    (hk : k ∈ expected) :
    (mergePages expected pages).find? (fun e => e.key == k) =
      some ⟨k, kv.value, kv.pos⟩ := by
  have hfh : firstHit k (allKVs pages) = some kv := by
    rw [hsplit]
    unfold firstHit
    rw [find?_append_of_neg _ pre _ (fun a ha => by
        simp only [decide_eq_true_eq]
        exact hpre a ha),
      List.find?_cons_of_pos _ (by simp [hkey, hval])]
  rw [mergePages_eq]
  have h := mergeList_find?_pending (allKVs pages) (initMerged expected)
    ⟨k, some "N/A", none⟩ k (find?_initMerged expected k hk) rfl
  rw [hfh] at h
  exact h

theorem merge_first_occurrence_entrywise_witness :
    (mergePages ["Total"]
      [some [⟨some "Total", some "N/A", none⟩,
             ⟨some "Total", some "7", some ⟨1, 2, 3, 4⟩⟩,
             ⟨some "Total", some "9", some ⟨9, 9, 9, 9⟩⟩]]).find?
        (fun e => e.key == "Total") =
      some ⟨"Total", some "7", some ⟨1, 2, 3, 4⟩⟩ :=
  merge_first_occurrence_entrywise ["Total"]
    [some [⟨some "Total", some "N/A", none⟩,
           ⟨some "Total", some "7", some ⟨1, 2, 3, 4⟩⟩,
           ⟨some "Total", some "9", some ⟨9, 9, 9, 9⟩⟩]] "Total"
    [⟨some "Total", some "N/A", none⟩]
    [⟨some "Total", some "9", some ⟨9, 9, 9, 9⟩⟩]
    ⟨some "Total", some "7", some ⟨1, 2, 3, 4⟩⟩
    (by decide) rfl (by decide) (by decide) (by decide)

/-- The value predicate asserted by the spec for flattened merged results:
either the literal `"N/A"` or a non-empty string. -/
def valOk (v : Option String) : Prop :=
  v = some "N/A" ∨ ∃ s, v = some s ∧ s ≠ ""

/-- C2 counterexample: a page whose AI output carries an empty-string value
for an expected field.  The merge adopts `""` (it is different from `"N/A"`),
so the flattened result's value for `"Total"` is neither a non-empty string
nor the literal `"N/A"`, refuting the claimed value invariant. -/
theorem merge_value_shape_cex :
    flattenMerged (mergePages ["Total"] [some [⟨some "Total", some "", none⟩]]) =
      [("Total", some "")] ∧ ¬ valOk (some "") := by
  refine ⟨by decide, ?_⟩
  rintro (h | ⟨s, hs, hne⟩)
  · exact absurd (Option.some.inj h) (by decide)
  · exact hne (Option.some.inj hs).symm

/-- C2 amended: for every AI per-page output (extra keys, missing keys, absent
`key_values` included) the flattened merged result's key sequence is exactly
the expected field list (each expected field once, in order, nothing else);
each value, however, is either the literal `"N/A"` or a value adopted verbatim
from some page's key-value element for that field — the code never checks that
an adopted value is a non-empty string. -/
theorem merge_domain_and_value_provenance (expected : List String)
    (pages : List (Option (List KVEntry))) (hnd : expected.Nodup) :
    ((flattenMerged (mergePages expected pages)).map Prod.fst = expected ∧
      ((flattenMerged (mergePages expected pages)).map Prod.fst).Nodup) ∧
    ∀ pr ∈ flattenMerged (mergePages expected pages),
      pr.2 = some "N/A" ∨
      ∃ kv ∈ allKVs pages, kv.key = some pr.1 ∧ kv.value = pr.2 ∧
        pr.2 ≠ some "N/A" := by
  have h1 : (flattenMerged (mergePages expected pages)).map Prod.fst =
      expected := by
    have h0 : (flattenMerged (mergePages expected pages)).map Prod.fst =
        (mergePages expected pages).map MergedEntry.key := by
      rw [flattenMerged, List.map_map]
      rfl
    rw [h0, mergePages_eq, mergeList_keys, initMerged, List.map_map]
    exact map_self _ expected (fun a _ => rfl)
  refine ⟨⟨h1, by rw [h1]; exact hnd⟩, ?_⟩
  · intro pr hpr
    rcases List.mem_map.mp hpr with ⟨e, he, heq⟩
    rw [mergePages_eq] at he
    rcases mem_mergeList (allKVs pages) (initMerged expected) e he with
      h | ⟨kv, hkv, h1, h2, h3, h4⟩
    · left
      rw [← heq]
      exact (mem_initMerged expected e h).1
    · right
      refine ⟨kv, hkv, ?_, ?_, ?_⟩ <;> rw [← heq]
      · exact h1
      · exact h2
      · exact h4

theorem merge_domain_and_value_provenance_witness :
    (flattenMerged (mergePages ["Invoice Number", "Total"]
      [some [⟨some "Extra", some "zz", none⟩]])).map Prod.fst =
      ["Invoice Number", "Total"] :=
  ((merge_domain_and_value_provenance ["Invoice Number", "Total"]
    [some [⟨some "Extra", some "zz", none⟩]] (by decide)).1).1

/-- Python whitespace as used by `str.strip()` and the regex class `\s` on
ASCII content: space, tab, newline, carriage return, vertical tab, form feed. -/
def isPyWS (c : Char) : Bool :=
  c = ' ' || c = '\t' || c = '\n' || c = '\r' || c = '\x0b' || c = '\x0c'

/-- `content.strip()`: drop whitespace from both ends. -/
def pyStrip (cs : List Char) : List Char :=
  ((cs.dropWhile isPyWS).reverse.dropWhile isPyWS).reverse

/-- `re.sub(r"^```(?:json)?\s*", "", content)`: when the text starts with
three backticks, consume them, an optional immediately following `json`, and
the following whitespace run. -/
def dropLeadFence : List Char → List Char
  | '`' :: '`' :: '`' :: rest =>
    match rest with
    | 'j' :: 's' :: 'o' :: 'n' :: rest2 => rest2.dropWhile isPyWS
    | _ => rest.dropWhile isPyWS
  | cs => cs

/-- `re.sub(r"\s*```$", "", content)`: when the text ends with three
backticks, drop them and the whitespace run before them. -/
def dropTrailFence (cs : List Char) : List Char :=
  match cs.reverse with
  | '`' :: '`' :: '`' :: rest => (rest.dropWhile isPyWS).reverse
  | _ => cs

/-- The full response clean-up applied by both AI extraction functions before
`json.loads`: `content = response...strip()` followed by the two
code-fence-removing substitutions. -/
def stripFences (s : String) : String :=
  String.mk (dropTrailFence (dropLeadFence (pyStrip s.toList)))

/-- A Python/JSON value as produced by `json.loads`. -/
inductive PyVal where
  | vNone : PyVal
  | vStr : String → PyVal
  | vInt : Int → PyVal
  | vList : List PyVal → PyVal
  | vDict : List (String × PyVal) → PyVal

/-- Builds the sentinel dictionary `{"message": msg}`. -/
def mkMsg (msg : String) : PyVal :=
  .vDict [("message", .vStr msg)]

/-- The sentinel returned by `extract_key_values_with_ai` and
`extract_key_values_with_ai_for_template` in `ai_extraction_service.py` when
anything in the `try` block fails. -/
def aiFailSentinel : PyVal :=
  mkMsg "Failed to extract data using AI."

/-- The try-block of `extract_key_values_with_ai` /
`extract_key_values_with_ai_for_template` in `ai_extraction_service.py`
(lines 55–78 and 143–166), as a function of the outcome of the OpenAI call
(`.error` models a raised exception, `.ok` the response text) and of
`json.loads` (modelled as the abstract parser `parse`, `none` modelling a
raised `JSONDecodeError`).  Every failure lands in the blanket
`except Exception` and yields the sentinel. -/
def aiExtract (call : Except String String) (parse : String → Option PyVal) :
    PyVal :=
  match call with
  | .error _ => aiFailSentinel
  | .ok content =>
    match parse (stripFences content) with
    | some j => j
    | none => aiFailSentinel

/-- What the caller of `extract_key_values_with_ai` observes: the function
always returns a value (`.ok`), never lets an exception escape. -/
def aiExtractRun (call : Except String String)
    (parse : String → Option PyVal) : Except String PyVal :=
  .ok (aiExtract call parse)

/-- C3: for every inference-backend text response, the extraction functions of
`ai_extraction_service.py` run structural parsing only on the content with the
leading and trailing code-fence wrapper stripped, and when parsing fails the
caller receives the sentinel dictionary built by `mkMsg` instead of an
exception.  The last two conjuncts check the fence stripping on a response
wrapped in ```` ```json ```` fences and one wrapped in plain ```` ``` ````
fences. -/
theorem ai_parse_failure_sentinel (parse : String → Option PyVal)
    (raw : String) :
    (parse (stripFences raw) = none →
      aiExtractRun (.ok raw) parse = .ok aiFailSentinel) ∧
    (∀ j, parse (stripFences raw) = some j →
      aiExtractRun (.ok raw) parse = .ok j) ∧
    (∀ e, aiExtractRun (.ok raw) parse ≠ .error e) ∧
    stripFences "```json\nnot valid json\n```" = "not valid json" ∧
    stripFences "``` truncated response" = "truncated response" := by
  refine ⟨?_, ?_, ?_, ?_, ?_⟩
  · intro h
    simp [aiExtractRun, aiExtract, h]
  · intro j h
    simp [aiExtractRun, aiExtract, h]
  · intro e
    simp [aiExtractRun]
  · rfl
  · rfl

theorem ai_parse_failure_sentinel_witness :
    aiExtractRun (.ok "```json\nnot valid json\n```") (fun _ => none) =
      .ok aiFailSentinel :=
  (ai_parse_failure_sentinel (fun _ => none) "```json\nnot valid json\n```").1 rfl

/-- C7 counterexample: a network/auth failure of the OpenAI call (the `.error`
outcome) is not propagated to the caller: the blanket `except Exception` of
`extract_key_values_with_ai` turns it into the same success-shaped sentinel
dictionary as a parse failure, so the caller observes `.ok`, never `.error`. -/
theorem ai_call_failure_cex :
    aiExtractRun (.error "connection error calling the inference backend")
        (fun _ => none) = .ok aiFailSentinel ∧
    ∀ e, aiExtractRun (.error "connection error calling the inference backend")
        (fun _ => none) ≠ .error e := by
  refine ⟨rfl, ?_⟩
  intro e
  simp [aiExtractRun]

/-- C7 amended: every exception raised while calling the inference backend —
network and auth failures included — is caught by the blanket
`except Exception` of `extract_key_values_with_ai` /
`extract_key_values_with_ai_for_template` and converted into the sentinel
`mkMsg "Failed to extract data using AI."`; no exception ever reaches the
caller. -/
theorem ai_call_failure_sentinel (call : Except String String)
    (parse : String → Option PyVal) :
    (aiExtractRun call parse).isOk = true ∧
    ∀ e, call = .error e → aiExtractRun call parse = .ok aiFailSentinel := by
  refine ⟨rfl, ?_⟩
  intro e he
  rw [he]
  rfl

theorem ai_call_failure_sentinel_witness :
    aiExtractRun (.error "authentication failure") (fun _ => none) =
      .ok aiFailSentinel :=
  (ai_call_failure_sentinel (.error "authentication failure")
    (fun _ => none)).2 "authentication failure" rfl

/-- The parallel-list dictionary produced by
`pytesseract.image_to_data(..., output_type=Output.DICT)`: entry `i` of each
list describes recognized word `i` (pytesseract keeps the lists the same
length). -/
structure OcrData where
  text : List String
  left : List Int
  top : List Int
  width : List Int
  height : List Int
  conf : List Int

/-- One element of the list built by `extract_word_positions` in
`ocr_service.py`: the recognized word and its bounding box. -/
structure WordPos where
  text : String
  x : Int
  y : Int
  w : Int
  h : Int
deriving DecidableEq, Repr

/-- `s.strip()` as a `String` function (see `pyStrip`). -/
def pyStripS (s : String) : String :=
  String.mk (pyStrip s.toList)

/-- `extract_word_positions` (ocr_service.py lines 59–100): keep index `i`
exactly when `int(data['conf'][i]) > 0 and data['text'][i].strip()`, emitting
the word text and its `left/top/width/height` box. -/
def extractWordPositions (d : OcrData) : List WordPos :=
  (List.range d.text.length).filterMap (fun i =>
    if d.conf.getD i 0 > 0 ∧ pyStripS (d.text.getD i "") ≠ "" then
      some ⟨d.text.getD i "", d.left.getD i 0, d.top.getD i 0,
            d.width.getD i 0, d.height.getD i 0⟩
    else none)

/-- C5: every element of the word-observation sequence returned by
`extract_word_positions` comes from an index whose confidence is strictly
positive and whose text is not blank, and carries the engine-reported text,
x, y, w, h of that index; in particular no retained entry has
whitespace-only text. -/
theorem word_positions_filtered (d : OcrData) (w : WordPos)
    (hw : w ∈ extractWordPositions d) :
    (∃ i, i < d.text.length ∧
      d.conf.getD i 0 > 0 ∧ pyStripS (d.text.getD i "") ≠ "" ∧
      w = ⟨d.text.getD i "", d.left.getD i 0, d.top.getD i 0,
           d.width.getD i 0, d.height.getD i 0⟩) ∧
    pyStripS w.text ≠ "" := by
  rcases List.mem_filterMap.mp hw with ⟨i, hi, hf⟩
  have hlen : i < d.text.length := List.mem_range.mp hi
  by_cases h : d.conf.getD i 0 > 0 ∧ pyStripS (d.text.getD i "") ≠ ""
  · rw [if_pos h] at hf
    have heq := Option.some.inj hf
    refine ⟨⟨i, hlen, h.1, h.2, heq.symm⟩, ?_⟩
    rw [← heq]
    exact h.2
  · rw [if_neg h] at hf
    exact absurd hf (by simp)

theorem word_positions_filtered_witness :
    (∃ i, i < (["", "Invoice", "  ", "500"] : List String).length ∧
      ([95, 90, 80, -1] : List Int).getD i 0 > 0 ∧
      pyStripS ((["", "Invoice", "  ", "500"] : List String).getD i "") ≠ "" ∧
      (⟨"Invoice", 10, 20, 30, 40⟩ : WordPos) =
        ⟨(["", "Invoice", "  ", "500"] : List String).getD i "",
         ([1, 10, 3, 4] : List Int).getD i 0,
         ([2, 20, 5, 6] : List Int).getD i 0,
         ([7, 30, 8, 9] : List Int).getD i 0,
         ([11, 40, 12, 13] : List Int).getD i 0⟩) ∧
    pyStripS (⟨"Invoice", 10, 20, 30, 40⟩ : WordPos).text ≠ "" :=
  word_positions_filtered
    ⟨["", "Invoice", "  ", "500"], [1, 10, 3, 4], [2, 20, 5, 6],
     [7, 30, 8, 9], [11, 40, 12, 13], [95, 90, 80, -1]⟩
    ⟨"Invoice", 10, 20, 30, 40⟩ (by decide)

/-- Modelled from the spec: the minimal-enclosing-rectangle combination of two
bounding boxes that multi-word / multi-line values must be reported with.  No
code under `src/` computes this combination — the extraction prompts in
`ai_extraction_service.py` delegate it to the inference backend ("If a value
spans multiple words or lines, combine their bounding boxes into one"), so the
operation is modelled here from the spec's words. -/
def combineBoxes (a b : Box) : Box :=
  ⟨min a.x b.x, min a.y b.y,
   max (a.x + a.w) (b.x + b.w) - min a.x b.x,
   max (a.y + a.h) (b.y + b.h) - min a.y b.y⟩

/-- `outer` encloses `inner` as axis-aligned rectangles in x/y/w/h form. -/
def boxCovers (outer inner : Box) : Prop :=
  outer.x ≤ inner.x ∧ outer.y ≤ inner.y ∧
  inner.x + inner.w ≤ outer.x + outer.w ∧
  inner.y + inner.h ≤ outer.y + outer.h

/-- C9: the combined box of two word boxes is their minimal enclosing
rectangle: it encloses both, any rectangle enclosing both encloses it, and on
the spec's example boxes it is exactly x 10, y 10, w 30, h 25. -/
theorem combineBoxes_minimal_enclosing (a b : Box) :
    boxCovers (combineBoxes a b) a ∧ boxCovers (combineBoxes a b) b ∧
    (∀ c, boxCovers c a → boxCovers c b → boxCovers c (combineBoxes a b)) ∧
    combineBoxes ⟨10, 10, 20, 10⟩ ⟨10, 25, 30, 10⟩ = ⟨10, 10, 30, 25⟩ := by
  refine ⟨?_, ?_, ?_, by decide⟩
  · unfold combineBoxes boxCovers
    dsimp only
    omega
  · unfold combineBoxes boxCovers
    dsimp only
    omega
  · intro c h1 h2
    unfold boxCovers at h1 h2 ⊢
    unfold combineBoxes
    dsimp only
    omega

theorem combineBoxes_minimal_enclosing_witness :
    combineBoxes ⟨10, 10, 20, 10⟩ ⟨10, 25, 30, 10⟩ = ⟨10, 10, 30, 25⟩ :=
  (combineBoxes_minimal_enclosing ⟨10, 10, 20, 10⟩ ⟨10, 25, 30, 10⟩).2.2.2

/-- The `position` dictionary of one AI key-value item as read by
`annotate_from_ai_response`: each coordinate is fetched with
`position.get(...)`, so each may be `None`. -/
structure PosDict where
  x : Option Int
  y : Option Int
  w : Option Int
  h : Option Int
deriving DecidableEq, Repr

/-- One item of the `key_values` list as read by `annotate_from_ai_response`:
`key = item.get("key")`, `position = item.get("position")`. -/
structure AnnItem where
  key : Option String
  pos : Option PosDict
deriving DecidableEq, Repr

/-- One drawing side effect of `annotate_from_ai_response`: an outline
rectangle (`cv2.rectangle`, corner to corner), a filled label background, the
label text (`cv2.putText` at its text origin), or a logged warning. -/
inductive DrawOp where
  | warn : DrawOp
  | rect : Int → Int → Int → Int → DrawOp
  | fillRect : Int → Int → Int → Int → DrawOp
  | label : String → Int → Int → DrawOp
deriving DecidableEq, Repr

/-- The loop body of `annotate_from_ai_response` (annotation_service.py lines
27–50) for one item, parameterised by `cv2.getTextSize` (`ts key = (text_w,
text_h)`): skip with a warning when the key is missing or falsy or the
position is missing or incomplete; otherwise draw the box rectangle, the
label background and the label, with
`text_y = y - 5 if y - 5 > 10 else y + text_h + 5`. -/
def annotateItem (ts : String → Int × Int) (item : AnnItem) : List DrawOp :=
  match item.key, item.pos with
  | some k, some p =>
    if k = "" then [.warn]
    else
      match p.x, p.y, p.w, p.h with
      | some x, some y, some w, some h =>
        let tw := (ts k).1
        let th := (ts k).2
        let tx := x
        let ty := if y - 5 > 10 then y - 5 else y + th + 5
        [.rect x y (x + w) (y + h),
         .fillRect (tx - 2) (ty - th - 2) (tx + tw + 2) (ty + 2),
         .label k tx ty]
      | _, _, _, _ => [.warn]
  | _, _ => [.warn]

/-- `annotate_from_ai_response` over the whole `key_values` list
(`ai_response.get("key_values", [])`): an empty or absent list is a warning
and no image is written (the `Bool` records whether `cv2.imwrite` runs). -/
def annotateFromAiResponse (ts : String → Int × Int)
    (keyValues : Option (List AnnItem)) : List DrawOp × Bool :=
  match keyValues.getD [] with
  | [] => ([.warn], false)
  | kvs => (kvs.flatMap (annotateItem ts), true)

/-- C6 counterexample: a box whose top edge is at `y = 10` has exactly 10px of
vertical clearance above it, so the claim requires the label above the box
(label text origin strictly above `y`).  With text height 10 the code computes
`y - 5 = 5 > 10` false and places the label at `text_y = 25`, below the top
edge — the claimed 10px-clearance threshold does not match the code's
`y - 5 > 10` test. -/
theorem annotate_label_clearance_cex :
    annotateItem (fun _ => (40, 10))
        ⟨some "Total", some ⟨some 50, some 10, some 20, some 10⟩⟩ =
      [.rect 50 10 70 20, .fillRect 48 13 92 27, .label "Total" 50 25] ∧
    ¬ ((25 : Int) < 10) := by
  exact ⟨rfl, by decide⟩

/-- C6 amended: for a complete position the renderer draws the outline
rectangle at the box and places the label above the box exactly when
`y - 5 > 10` (more than 15px above the image top), otherwise at
`y + text_h + 5`, below the box's top edge; items with a missing or falsy key,
a missing position, or an incomplete position are skipped with a warning, not
an error. -/
theorem annotate_render_and_skip (ts : String → Int × Int)
    (k : String) (x y w h : Int) (hk : k ≠ "") :
    (∃ ty : Int,
      annotateItem ts ⟨some k, some ⟨some x, some y, some w, some h⟩⟩ =
        [.rect x y (x + w) (y + h),
         .fillRect (x - 2) (ty - (ts k).2 - 2) (x + (ts k).1 + 2) (ty + 2),
         .label k x ty] ∧
      (y - 5 > 10 → ty = y - 5 ∧ ty < y) ∧
      (¬ y - 5 > 10 → ty = y + (ts k).2 + 5 ∧ (0 ≤ (ts k).2 → y < ty))) ∧
    (∀ p, annotateItem ts ⟨none, p⟩ = [.warn]) ∧
    annotateItem ts ⟨some k, none⟩ = [.warn] ∧
    (∀ p : PosDict, p.x = none ∨ p.y = none ∨ p.w = none ∨ p.h = none →
      annotateItem ts ⟨some k, some p⟩ = [.warn]) := by
  refine ⟨⟨if y - 5 > 10 then y - 5 else y + (ts k).2 + 5, ?_, ?_, ?_⟩,
    ?_, ?_, ?_⟩
  · simp only [annotateItem]
    rw [if_neg hk]
  · intro hy
    rw [if_pos hy]
    exact ⟨rfl, by omega⟩
  · intro hy
    rw [if_neg hy]
    exact ⟨rfl, fun h2 => by omega⟩
  · intro p
    cases p <;> rfl
  · rfl
  · intro p hp
    rcases p with ⟨px, py, pw, ph⟩
    cases px <;> cases py <;> cases pw <;> cases ph <;>
      (simp only [annotateItem]
       rw [if_neg hk]
       try first
       | rfl
       | exact absurd hp (by simp))

theorem annotate_render_and_skip_witness :
    annotateItem (fun _ => (40, 10)) ⟨some "Total", none⟩ = [.warn] :=
  (annotate_render_and_skip (fun _ => (40, 10)) "Total" 50 100 20 10
    (by decide)).2.2.1

/-- `extract_key_values_with_ai` as defined in `template_processing.py`
(lines 142–208): same fence stripping, but an inner `try` distinguishes the
invalid-JSON sentinel from the blanket call-failure sentinel. -/
def aiExtractTP (call : Except String String)
    (parse : String → Option PyVal) : PyVal :=
  match call with
  | .error _ => mkMsg "Failed to extract data using AI."
  | .ok content =>
    match parse (stripFences content) with
    | some j => j
    | none => mkMsg "AI response was not valid JSON."

/-- `ai_result.get("key_values")` as used by the page loop's truthiness test:
the list when the result is a dictionary holding a list under
`"key_values"`, else empty (non-list values are modelled as absent). -/
def keyValuesOf (v : PyVal) : List PyVal :=
  match v with
  | .vDict kvs =>
    match kvs.lookup "key_values" with
    | some (.vList xs) => xs
    | _ => []
  | _ => []

/-- Stage outcomes for one page of the `process_template` loop
(template_processing.py lines 218–247): `preproc` is `preprocess_image`,
`ocr` is `ocr_image`, `words` is `extract_word_positions`, `aiCall` is the
OpenAI call inside `extract_key_values_with_ai` (handled internally by that
function), `annotateOk` is whether `annotate_from_ai_response` succeeds when
it is attempted.  `.error` models a raised exception. -/
structure PageRun where
  preproc : Except String Unit
  ocr : Except String String
  words : Except String Unit
  aiCall : Except String String
  annotateOk : Bool

/-- `f"temp_annotate/annotated_page_{idx}.png"`. -/
def annotatedPath (idx : Nat) : String :=
  "temp_annotate/annotated_page_" ++ toString idx ++ ".png"

/-- `f"temp_annotated/ai_annotated_page_{idx}.png"`. -/
def aiAnnotatedPath (idx : Nat) : String :=
  "temp_annotated/ai_annotated_page_" ++ toString idx ++ ".png"

/-- The per-page result dictionary appended by `process_template`. -/
structure PageResult where
  page : Nat
  annotated_image : String
  ai_extraction : PyVal
  ai_annotated_image : Option String

/-- One iteration of the page loop of `process_template` (lines 218–247):
preprocessing, text recognition and word extraction propagate exceptions
(there is no per-page handler — they reach the function-level `except`, which
re-raises); the AI extraction itself never raises; annotation is attempted
only when `ai_result.get("key_values")` is truthy and its exception also
propagates. -/
def processPage (parse : String → Option PyVal) (idx : Nat) (p : PageRun) :
    Except String PageResult :=
  match p.preproc with
  | .error e => .error e
  | .ok _ =>
    match p.ocr with
    | .error e => .error e
    | .ok _ =>
      match p.words with
      | .error e => .error e
      | .ok _ =>
        let ai := aiExtractTP p.aiCall parse
        match keyValuesOf ai with
        | [] => .ok ⟨idx, annotatedPath idx, ai, none⟩
        | _ :: _ =>
          if p.annotateOk then
            .ok ⟨idx, annotatedPath idx, ai, some (aiAnnotatedPath idx)⟩
          else .error "annotate_from_ai_response raised"

/-- The page loop of `process_template`, pages numbered from `idx`
(`enumerate(pages, start=1)`); the first exception aborts the whole loop. -/
def processPages (parse : String → Option PyVal) :
    Nat → List PageRun → Except String (List PageResult)
  | _, [] => .ok []
  | idx, p :: rest =>
    match processPage parse idx p with
    | .error e => .error e
    | .ok r =>
      match processPages parse (idx + 1) rest with
      | .error e => .error e
      | .ok rs => .ok (r :: rs)

/-- `process_template` after rasterization: run the page loop from page 1. -/
def processTemplate (parse : String → Option PyVal) (pages : List PageRun) :
    Except String (List PageResult) :=
  processPages parse 1 pages

/-- The stages of one page that `process_template` has no per-page handler
for: preprocessing, text recognition, word extraction, and (when attempted)
annotation all succeed. -/
def pageHardOk (parse : String → Option PyVal) (p : PageRun) : Prop :=
  p.preproc.isOk = true ∧ p.ocr.isOk = true ∧ p.words.isOk = true ∧
  (keyValuesOf (aiExtractTP p.aiCall parse) = [] ∨ p.annotateOk = true)

theorem processPage_ok (parse : String → Option PyVal) (idx : Nat)
    (p : PageRun) (h : pageHardOk parse p) :
    processPage parse idx p =
      .ok ⟨idx, annotatedPath idx, aiExtractTP p.aiCall parse,
           match keyValuesOf (aiExtractTP p.aiCall parse) with
           | [] => none
           | _ :: _ => some (aiAnnotatedPath idx)⟩ := by
  obtain ⟨h1, h2, h3, h4⟩ := h
  unfold processPage
  cases hp : p.preproc with
  | error e => rw [hp] at h1; exact Bool.noConfusion h1
  | ok u =>
    cases ho : p.ocr with
    | error e => rw [ho] at h2; exact Bool.noConfusion h2
    | ok t =>
      cases hw : p.words with
      | error e => rw [hw] at h3; exact Bool.noConfusion h3
      | ok u2 =>
        dsimp only
        cases hkv : keyValuesOf (aiExtractTP p.aiCall parse) with
        | nil => rfl
        | cons a l =>
          rcases h4 with h4 | h4
          · rw [hkv] at h4; cases h4
          · rw [h4, if_pos rfl]

theorem processPage_err (parse : String → Option PyVal) (idx : Nat)
    (p : PageRun) (h : ¬ pageHardOk parse p) :
    ∃ e, processPage parse idx p = .error e := by
  unfold processPage
  cases hp : p.preproc with
  | error e => exact ⟨e, rfl⟩
  | ok u =>
    cases ho : p.ocr with
    | error e => exact ⟨e, rfl⟩
    | ok t =>
      cases hw : p.words with
      | error e => exact ⟨e, rfl⟩
      | ok u2 =>
        dsimp only
        cases hkv : keyValuesOf (aiExtractTP p.aiCall parse) with
        | nil =>
          exact absurd ⟨by rw [hp]; rfl, by rw [ho]; rfl, by rw [hw]; rfl,
            Or.inl hkv⟩ h
        | cons a l =>
          cases ha : p.annotateOk with
          | true =>
            exact absurd ⟨by rw [hp]; rfl, by rw [ho]; rfl, by rw [hw]; rfl,
              Or.inr ha⟩ h
          | false =>
            refine ⟨"annotate_from_ai_response raised", ?_⟩
            simp

theorem processPages_all_ok (parse : String → Option PyVal)
    (pages : List PageRun) :
    ∀ idx : Nat, (∀ p ∈ pages, pageHardOk parse p) →
    ∃ rs, processPages parse idx pages = .ok rs ∧
      rs.map PageResult.ai_extraction =
        pages.map (fun p => aiExtractTP p.aiCall parse) ∧
      rs.map PageResult.page = List.range' idx pages.length := by
  induction pages with
  | nil => intro idx _; exact ⟨[], rfl, rfl, rfl⟩
  | cons p pages ih =>
    intro idx hall
    obtain ⟨rs, hrs, hai, hpg⟩ :=
      ih (idx + 1) (fun q hq => hall q (List.mem_cons_of_mem p hq))
    refine ⟨⟨idx, annotatedPath idx, aiExtractTP p.aiCall parse,
        match keyValuesOf (aiExtractTP p.aiCall parse) with
        | [] => none
        | _ :: _ => some (aiAnnotatedPath idx)⟩ :: rs, ?_, ?_, ?_⟩
    · unfold processPages
      rw [processPage_ok parse idx p (hall p (List.mem_cons_self p pages)), hrs]
    · rw [List.map_cons, List.map_cons, hai]
    · rw [List.map_cons, List.length_cons, List.range'_succ, hpg]

theorem processPages_abort (parse : String → Option PyVal)
    (pages : List PageRun) :
    ∀ idx : Nat, (∃ p ∈ pages, ¬ pageHardOk parse p) →
    ∃ e, processPages parse idx pages = .error e := by
  induction pages with
  | nil => intro idx h; rcases h with ⟨p, hp, -⟩; cases hp
  | cons p pages ih =>
    intro idx h
    unfold processPages
    cases hpp : processPage parse idx p with
    | error e => exact ⟨e, rfl⟩
    | ok r =>
      rcases h with ⟨q, hq, hfail⟩
      rcases List.mem_cons.mp hq with h1 | h1
      · obtain ⟨e, he⟩ := processPage_err parse idx q hfail
        rw [h1, hpp] at he
        cases he
      · obtain ⟨e, he⟩ := ih (idx + 1) ⟨q, h1, hfail⟩
        rw [he]
        exact ⟨e, rfl⟩

/-- C4 amended: in `process_template` only the inference stage is absorbed
per page — `extract_key_values_with_ai` catches its own exceptions and
returns a sentinel dictionary, so a run whose other stages succeed returns
one result per page (numbered from 1) whose `ai_extraction` field is exactly
the (possibly sentinel-valued) extraction, and the run continues past a page
whose inference failed; a failure in preprocessing, text recognition, word
extraction or annotation, by contrast, propagates out of the page loop and
aborts the whole run (the function-level handler re-raises it). -/
theorem process_template_page_failures (parse : String → Option PyVal)
    (pages : List PageRun) :
    ((∀ p ∈ pages, pageHardOk parse p) →
      ∃ rs, processTemplate parse pages = .ok rs ∧
        rs.map PageResult.ai_extraction =
          pages.map (fun p => aiExtractTP p.aiCall parse) ∧
        rs.map PageResult.page = List.range' 1 pages.length) ∧
    ((∃ p ∈ pages, ¬ pageHardOk parse p) →
      ∃ e, processTemplate parse pages = .error e) := by
  exact ⟨fun h => processPages_all_ok parse pages 1 h,
    fun h => processPages_abort parse pages 1 h⟩

theorem process_template_page_failures_witness :
    ∃ rs, processTemplate (fun _ => none)
        [⟨.ok (), .ok "page text", .ok (), .error "network failure", true⟩] =
        .ok rs ∧
      rs.map PageResult.ai_extraction =
        ([⟨.ok (), .ok "page text", .ok (), .error "network failure", true⟩] :
            List PageRun).map
          (fun p => aiExtractTP p.aiCall (fun _ => none)) ∧
      rs.map PageResult.page = List.range' 1 1 :=
  (process_template_page_failures (fun _ => none)
    [⟨.ok (), .ok "page text", .ok (), .error "network failure", true⟩]).1
    (by
      intro p hp
      rcases List.mem_cons.mp hp with h | h
      · subst h
        exact ⟨rfl, rfl, rfl, Or.inl rfl⟩
      · cases h)

/-- C4 counterexample: a two-page run whose first page fails in preprocessing.
The claim requires the orchestrator to catch the failure, substitute an empty
extraction set for page 1 and continue with page 2 (a successful run); the
code instead lets the exception escape the page loop, so the whole run
fails with that exception and page 2 is never processed. -/
theorem process_template_abort_cex :
    processTemplate (fun _ => none)
      [⟨.error "cv2 preprocessing raised", .ok "", .ok (), .ok "resp", true⟩,
       ⟨.ok (), .ok "text", .ok (), .ok "resp", true⟩] =
      .error "cv2 preprocessing raised" ∧
    ∀ rs, processTemplate (fun _ => none)
      [⟨.error "cv2 preprocessing raised", .ok "", .ok (), .ok "resp", true⟩,
       ⟨.ok (), .ok "text", .ok (), .ok "resp", true⟩] ≠ .ok rs := by
  refine ⟨rfl, ?_⟩
  intro rs h
  rw [show processTemplate (fun _ => none)
      [⟨.error "cv2 preprocessing raised", .ok "", .ok (), .ok "resp", true⟩,
       ⟨.ok (), .ok "text", .ok (), .ok "resp", true⟩] =
      .error "cv2 preprocessing raised" from rfl] at h
  cases h

/-- A file-system side effect of `create_template_to_data`. -/
inductive FsEvent where
  | write : String → FsEvent
  | remove : String → FsEvent
deriving DecidableEq, Repr

/-- `file_path = f"temp_{template_id}_{file.filename}"`
(template_upload.py line 121). -/
def tempPath (templateId : Nat) (filename : String) : String :=
  "temp_" ++ toString templateId ++ "_" ++ filename

/-- Outcomes of the fallible steps of `create_template_to_data`:
whether `get_template_metadata` finds the template, whether
`extract_data_using_template` returns (rather than raises), and whether
`create_extraction_result` persists (rather than raises). -/
structure UploadOutcomes where
  templateFound : Bool
  extractOk : Bool
  persistOk : Bool

/-- The file-handling control flow of `create_template_to_data`
(template_upload.py lines 111–197): the upload is written to the temporary
path; `os.remove` runs only at line 145, after a successful metadata lookup
and extraction; every raised exception jumps to the `except` block (line
195), which raises `HTTPException` without any cleanup.  Returns the ordered
file-system events and whether the request succeeds. -/
def createTemplateToData (templateId : Nat) (filename : String)
    (r : UploadOutcomes) : List FsEvent × Bool :=
  let p := tempPath templateId filename
  if ¬ r.templateFound then ([.write p], false)
  else if ¬ r.extractOk then ([.write p], false)
  else if ¬ r.persistOk then ([.write p, .remove p], false)
  else ([.write p, .remove p], true)

/-- Every temporary path written during the run is also removed during it. -/
def cleansUp (evs : List FsEvent) : Prop :=
  ∀ p, FsEvent.write p ∈ evs → FsEvent.remove p ∈ evs

/-- C8 (code bug): on the failure exit path where the template lookup fails
(HTTP 404 → 500), the uploaded temporary file has been written but is never
removed — the run returns with the temp file leaked, contradicting the
spec's requirement that every exit path deletes the run's temporary files.
The last conjunct shows the success path does clean up. -/
theorem temp_file_leak_on_failure :
    (createTemplateToData 7 "invoice.pdf" ⟨false, true, true⟩).1 =
      [.write "temp_7_invoice.pdf"] ∧
    (createTemplateToData 7 "invoice.pdf" ⟨false, true, true⟩).2 = false ∧
    ¬ cleansUp (createTemplateToData 7 "invoice.pdf" ⟨false, true, true⟩).1 ∧
    cleansUp (createTemplateToData 7 "invoice.pdf" ⟨true, true, true⟩).1 := by
  refine ⟨rfl, rfl, ?_, ?_⟩
  · intro hcl
    have h2 := hcl "temp_7_invoice.pdf" (by decide)
    exact absurd h2 (by decide)
  · intro p hp
    have hev : (createTemplateToData 7 "invoice.pdf" ⟨true, true, true⟩).1 =
        [.write "temp_7_invoice.pdf", .remove "temp_7_invoice.pdf"] := rfl
    rw [hev] at hp ⊢
    rcases List.mem_cons.mp hp with h | h
    · rw [FsEvent.write.injEq] at h
      subst h
      exact List.mem_cons_of_mem _ (List.mem_cons_self _ _)
    · rcases List.mem_cons.mp h with h2 | h2
      · cases h2
      · cases h2
